import Mathlib

/-!
Verification of the RAG pipeline of `app/invoice_rag.py`.

Python strings are modelled as `List Char` (a Python `str` is a sequence of
code points).  The vector store is the chromadb collection used by the app;
chromadb itself is an external library, so the store is modelled from the
spec (§4.4): a mapping from id to (document, embedding, metadata) with
insert-or-overwrite `add` and `count`.  The embedding service is external
(OpenAI); per the spec (§6) a batch call returns one vector per input,
order-preserving, which is modelled by mapping a caller-supplied function
`embed1 : String -> E` over the inputs; a fallible single-query call is a
caller-supplied `String -> Except Err E`.
-/

namespace InvoiceRag

/-- Characters for which Python's `str.isspace()` is true, the set that
`str.strip()` removes: ASCII whitespace (code points 9-13 and 32), the
separators 28-31 and 133, no-break space 160, Ogham space 5760, the
Unicode spaces 8192-8202, the line and paragraph separators 8232 and
8233, narrow no-break space 8239, medium mathematical space 8287, and
ideographic space 12288. -/
def pyIsSpace (c : Char) : Bool :=
  ([9, 10, 11, 12, 13, 28, 29, 30, 31, 32, 133, 160, 5760,
    8192, 8193, 8194, 8195, 8196, 8197, 8198, 8199, 8200, 8201, 8202,
    8232, 8233, 8239, 8287, 12288] : List Nat).contains c.toNat

/-- `chunk.strip()` is falsy iff every character is whitespace.  The code's
`if chunk.strip():` keeps exactly the chunks for which this is `false`. -/
def isBlank (c : List Char) : Bool :=
  c.all pyIsSpace

/-- Python slice `text[a:b]` for `0 ≤ a ≤ b` (out-of-range `b` clamps). -/
def pySlice (l : List Char) (a b : Nat) : List Char :=
  (l.take b).drop a

/-- The `while start < len(text)` loop of `chunk_text`, with explicit fuel.
Each iteration appends `text[start:start+chunk_size]` and sets
`start = end - overlap`.  `none` means the fuel ran out, i.e. the loop did
not terminate within `fuel` iterations. -/
def chunkGo (l : List Char) (C O : Nat) : Nat → Nat → Option (List (List Char))
  | 0, start => if start < l.length then none else some []
  | fuel + 1, start =>
    if start < l.length then
      match chunkGo l C O fuel (start + C - O) with
      | some cs => some (pySlice l start (start + C) :: cs)
      | none => none
    else
      some []

/-- `chunk_text(text, chunk_size, overlap)` from `app/invoice_rag.py`.
When `overlap < chunk_size` the loop runs at most `len(text)` times, so
fuel `len(text) + 1` is enough and the result is `some` of the chunk list;
`none` models divergence of the Python loop (possible only when
`overlap >= chunk_size`). -/
def chunk_text (l : List Char) (C O : Nat) : Option (List (List Char)) :=
  chunkGo l C O (l.length + 1) 0

/-- Ceiling division on naturals: `natCeilDiv a b = ⌈a / b⌉` for `b > 0`. -/
def natCeilDiv (a b : Nat) : Nat :=
  (a + b - 1) / b

theorem chunkGo_of_le (l : List Char) (C O fuel start : Nat)
    (h : l.length ≤ start) : chunkGo l C O fuel start = some [] := by
  cases fuel <;> simp [chunkGo, Nat.not_lt.2 h]

theorem chunkGo_isSome (l : List Char) (C O : Nat) (hCO : O < C) :
    ∀ fuel start, l.length ≤ start + fuel * (C - O) →
      ∃ cs, chunkGo l C O fuel start = some cs := by
  intro fuel
  induction fuel with
  | zero =>
    intro start h
    simp only [Nat.zero_mul, Nat.add_zero] at h
    exact ⟨[], chunkGo_of_le l C O 0 start h⟩
  | succ n ih =>
    intro start h
    by_cases hs : start < l.length
    · have hstep : start + C - O = start + (C - O) :=
        Nat.add_sub_assoc (Nat.le_of_lt hCO) start
      have hle : l.length ≤ (start + (C - O)) + n * (C - O) := by
        calc l.length ≤ start + (n + 1) * (C - O) := h
          _ = (start + (C - O)) + n * (C - O) := by ring
      obtain ⟨cs, hcs⟩ := ih (start + (C - O)) hle
      refine ⟨pySlice l start (start + C) :: cs, ?_⟩
      simp [chunkGo, hs, hstep, hcs]
    · exact ⟨[], chunkGo_of_le l C O (n + 1) start (Nat.not_lt.1 hs)⟩

theorem chunk_text_isSome (l : List Char) (C O : Nat) (hCO : O < C) :
    ∃ cs, chunk_text l C O = some cs := by
  apply chunkGo_isSome l C O hCO
  have h1 : 1 ≤ C - O := Nat.le_sub_of_add_le (by omega)
  calc l.length ≤ 0 + (l.length + 1) * 1 := by omega
    _ ≤ 0 + (l.length + 1) * (C - O) :=
        Nat.add_le_add_left (Nat.mul_le_mul_left _ h1) 0

theorem natCeilDiv_of_pos (a b : Nat) (ha : 0 < a) (hb : 0 < b) :
    natCeilDiv a b = (a - 1) / b + 1 := by
  unfold natCeilDiv
  have h : a + b - 1 = (a - 1) + b := by omega
  rw [h, Nat.add_div_right _ hb]

theorem chunkGo_length (l : List Char) (C O : Nat) (hCO : O < C) :
    ∀ fuel start cs, chunkGo l C O fuel start = some cs →
      cs.length = natCeilDiv (l.length - start) (C - O) := by
  intro fuel
  induction fuel with
  | zero =>
    intro start cs h
    by_cases hs : start < l.length
    · simp [chunkGo, hs] at h
    · simp only [chunkGo, if_neg hs, Option.some.injEq] at h
      subst h
      simp [natCeilDiv, Nat.sub_eq_zero_of_le (Nat.not_lt.1 hs),
        Nat.div_eq_of_lt (by omega : C - O - 1 < C - O)]
  | succ n ih =>
    intro start cs h
    by_cases hs : start < l.length
    · have hstep : start + C - O = start + (C - O) :=
        Nat.add_sub_assoc (Nat.le_of_lt hCO) start
      simp only [chunkGo, if_pos hs, hstep] at h
      cases hrec : chunkGo l C O n (start + (C - O)) with
      | none => rw [hrec] at h; cases h
      | some cs' =>
        rw [hrec] at h
        cases h
        have hlen := ih (start + (C - O)) cs' hrec
        have hsub : l.length - (start + (C - O)) = l.length - start - (C - O) := by
          omega
        have hpos : 0 < l.length - start := by omega
        have hb : 0 < C - O := by omega
        simp only [List.length_cons, hlen, hsub]
        rw [natCeilDiv_of_pos _ _ hpos hb]
        by_cases hc : l.length - start ≤ C - O
        · have h0 : l.length - start - (C - O) = 0 := by omega
          rw [h0]
          have : natCeilDiv 0 (C - O) = 0 := by
            unfold natCeilDiv
            exact Nat.div_eq_of_lt (by omega)
          rw [this]
          have : (l.length - start - 1) / (C - O) = 0 :=
            Nat.div_eq_of_lt (by omega)
          omega
        · have hpos' : 0 < l.length - start - (C - O) := by omega
          rw [natCeilDiv_of_pos _ _ hpos' hb]
          have : l.length - start - 1 = (l.length - start - (C - O) - 1) + (C - O) := by
            omega
          rw [this, Nat.add_div_right _ hb]
    · rw [chunkGo_of_le l C O (n + 1) start (Nat.not_lt.1 hs)] at h
      cases h
      simp [natCeilDiv, Nat.sub_eq_zero_of_le (Nat.not_lt.1 hs),
        Nat.div_eq_of_lt (by omega : C - O - 1 < C - O)]

theorem pySlice_length (l : List Char) (a b : Nat) :
    (pySlice l a b).length = min b l.length - a := by
  simp [pySlice]

theorem pySlice_split (l : List Char) (a b : Nat) (hab : a ≤ b) :
    l = l.take a ++ pySlice l a b ++ l.drop b := by
  have h2 : l.take b = l.take a ++ (l.take b).drop a := by
    conv_lhs => rw [← List.take_append_drop a (l.take b)]
    rw [List.take_take, Nat.min_eq_left hab]
  calc l = l.take b ++ l.drop b := (List.take_append_drop b l).symm
    _ = (l.take a ++ (l.take b).drop a) ++ l.drop b := by rw [← h2]
    _ = l.take a ++ pySlice l a b ++ l.drop b := rfl

theorem chunkGo_ne_nil (l : List Char) (C O : Nat) (hC : 0 < C) :
    ∀ fuel start cs, chunkGo l C O fuel start = some cs →
      ∀ c ∈ cs, c ≠ [] := by
  intro fuel
  induction fuel with
  | zero =>
    intro start cs h
    by_cases hs : start < l.length
    · simp [chunkGo, hs] at h
    · simp only [chunkGo, if_neg hs, Option.some.injEq] at h
      subst h
      intro c hc
      cases hc
  | succ n ih =>
    intro start cs h
    by_cases hs : start < l.length
    · simp only [chunkGo, if_pos hs] at h
      cases hrec : chunkGo l C O n (start + C - O) with
      | none => rw [hrec] at h; cases h
      | some cs' =>
        rw [hrec] at h
        cases h
        intro c hc
        rcases List.mem_cons.1 hc with hc | hc
        · subst hc
          have hlen : 0 < (pySlice l start (start + C)).length := by
            rw [pySlice_length]
            omega
          exact List.ne_nil_of_length_pos hlen
        · exact ih (start + C - O) cs' hrec c hc
    · rw [chunkGo_of_le l C O (n + 1) start (Nat.not_lt.1 hs)] at h
      cases h
      intro c hc
      cases hc

theorem chunkGo_mem_sub (l : List Char) (C O : Nat) :
    ∀ fuel start cs, chunkGo l C O fuel start = some cs →
      ∀ c ∈ cs, ∃ p q, l = p ++ c ++ q := by
  intro fuel
  induction fuel with
  | zero =>
    intro start cs h
    by_cases hs : start < l.length
    · simp [chunkGo, hs] at h
    · simp only [chunkGo, if_neg hs, Option.some.injEq] at h
      subst h
      intro c hc
      cases hc
  | succ n ih =>
    intro start cs h
    by_cases hs : start < l.length
    · simp only [chunkGo, if_pos hs] at h
      cases hrec : chunkGo l C O n (start + C - O) with
      | none => rw [hrec] at h; cases h
      | some cs' =>
        rw [hrec] at h
        cases h
        intro c hc
        rcases List.mem_cons.1 hc with hc | hc
        · subst hc
          exact ⟨l.take start, l.drop (start + C),
            pySlice_split l start (start + C) (Nat.le_add_right start C)⟩
        · exact ih (start + C - O) cs' hrec c hc
    · rw [chunkGo_of_le l C O (n + 1) start (Nat.not_lt.1 hs)] at h
      cases h
      intro c hc
      cases hc

theorem pySlice_take_stride (l : List Char) (start C O : Nat) :
    (pySlice l start (start + C)).take (C - O) = (l.drop start).take (C - O) := by
  unfold pySlice
  rw [List.drop_take, Nat.add_sub_cancel_left, List.take_take,
    Nat.min_eq_left (Nat.sub_le C O)]

theorem chunkGo_flatten_takes (l : List Char) (C O : Nat) (hCO : O < C) :
    ∀ fuel start cs, chunkGo l C O fuel start = some cs →
      (cs.map (List.take (C - O))).flatten = l.drop start := by
  intro fuel
  induction fuel with
  | zero =>
    intro start cs h
    by_cases hs : start < l.length
    · simp [chunkGo, hs] at h
    · simp only [chunkGo, if_neg hs, Option.some.injEq] at h
      subst h
      simp [List.drop_eq_nil_of_le (Nat.not_lt.1 hs)]
  | succ n ih =>
    intro start cs h
    by_cases hs : start < l.length
    · have hstep : start + C - O = start + (C - O) :=
        Nat.add_sub_assoc (Nat.le_of_lt hCO) start
      simp only [chunkGo, if_pos hs] at h
      cases hrec : chunkGo l C O n (start + C - O) with
      | none => rw [hrec] at h; cases h
      | some cs' =>
        rw [hrec] at h
        cases h
        have hih := ih (start + C - O) cs' hrec
        simp only [List.map_cons, List.flatten_cons, hih]
        rw [pySlice_take_stride l start C O, hstep]
        have hdd : l.drop (start + (C - O)) = (l.drop start).drop (C - O) := by
          rw [List.drop_drop, Nat.add_comm]
        rw [hdd, List.take_append_drop]
    · rw [chunkGo_of_le l C O (n + 1) start (Nat.not_lt.1 hs)] at h
      cases h
      simp [List.drop_eq_nil_of_le (Nat.not_lt.1 hs)]

/-- Metadata attached to a stored chunk: `{"source": filename, "chunk": i}`. -/
structure ChunkMeta where
  source : String
  chunk : Nat
deriving Repr, DecidableEq

/-- Modelled from the spec: the vector store collection (spec §4.4) is the
chromadb collection `invoice_rag_kb`, an external library not under `src/`.
It maps chunk id to (document, embedding, metadata); `add` inserts or
overwrites by id; `count` is the number of stored entries. -/
structure Store (E : Type) where
  entries : List (String × List Char × E × ChunkMeta)
deriving DecidableEq

variable {E Err : Type}

/-- Modelled from the spec: `collection.count()`, the number of stored
entries (ids are unique because `add` overwrites by id). -/
def Store.count (s : Store E) : Nat :=
  s.entries.length

/-- Modelled from the spec: insert-or-overwrite of a single entry by id. -/
def Store.upsert (s : Store E) (id : String) (doc : List Char) (e : E)
    (m : ChunkMeta) : Store E :=
  if s.entries.any (fun ent => ent.1 = id) then
    ⟨s.entries.map (fun ent => if ent.1 = id then (id, doc, e, m) else ent)⟩
  else
    ⟨s.entries ++ [(id, doc, e, m)]⟩

/-- Modelled from the spec: `collection.add(documents=..., metadatas=...,
embeddings=..., ids=...)`; the four sequences are consumed in lockstep,
inserting or overwriting entry by entry. -/
def Store.add (s : Store E) :
    List (List Char) → List ChunkMeta → List E → List String → Store E
  | d :: ds, m :: ms, e :: es, i :: ids => ((s.upsert i d e m).add ds ms es ids)
  | _, _, _, _ => s

/-- The page marker `f"[Page {i+1}]\n{text}"` prepended by `load_pdf_text`. -/
def pageMark (i : Nat) (t : List Char) : List Char :=
  ("[Page " ++ toString (i + 1) ++ "]\n").toList ++ t

/-- `load_pdf_text` from `app/invoice_rag.py`, applied to the per-page
texts extracted by the external pypdf reader: pages with no extractable
text are skipped (`if text:`), the rest are page-marked and joined with a
newline. -/
def load_pdf_text (pages : List (List Char)) : List Char :=
  List.intercalate ['\n']
    (((pages.enum).filter (fun p => !p.2.isEmpty)).map (fun p => pageMark p.1 p.2))

/-- The filtering loop of `index_pdf`:
`for i, chunk in enumerate(chunks): if chunk.strip(): ...` appending the
chunk to `all_chunks`, `{"source": filename, "chunk": i}` to `metadatas`,
and `f"{stem}_{i}"` to `ids`.  The first argument is the value of the
enumeration counter `i` at entry. -/
def buildLists (stem filename : String) :
    Nat → List (List Char) → List (List Char) × List ChunkMeta × List String
  | _, [] => ([], [], [])
  | i, c :: rest =>
    let r := buildLists stem filename (i + 1) rest
    if isBlank c then r
    else (c :: r.1, ⟨filename, i⟩ :: r.2.1, (stem ++ "_" ++ toString i) :: r.2.2)

/-- The arguments of the single `collection.add` call made by `index_pdf`. -/
structure AddArgs (E : Type) where
  documents : List (List Char)
  metadatas : List ChunkMeta
  embeddings : List E
  ids : List String
deriving DecidableEq

/-- Observable outcome of one `index_pdf` call: the returned count, the
batch sent to the embedding service (`none` when the service was not
called), the arguments of the `collection.add` call (`none` when `add` was
not called), and the resulting store. -/
structure IndexResult (E : Type) where
  ret : Nat
  embedArgs : Option (List (List Char))
  addArgs : Option (AddArgs E)
  store : Store E
deriving DecidableEq

/-- `index_pdf` from `app/invoice_rag.py`, starting after the external
steps (temp-file handling and pypdf extraction): the input is the list of
per-page extracted texts.  `stem` is `Path(filename).stem`, computed by the
external pathlib.  `embed1` models the external embedding service, which
per spec §6 returns one vector per input, order-preserving, so the batch
call is `all_chunks.map embed1`.  The result is `none` only if the
chunking loop diverges (impossible for the defaults 800/120). -/
def index_pdf (store : Store E) (embed1 : List Char → E) (filename stem : String)
    (pages : List (List Char)) : Option (IndexResult E) :=
  (chunk_text (load_pdf_text pages) 800 120).map fun chunks =>
    if chunks.isEmpty then ⟨0, none, none, store⟩
    else
      let lists := buildLists stem filename 0 chunks
      if lists.1.isEmpty then ⟨0, none, none, store⟩
      else
        let embeddings := lists.1.map embed1
        ⟨lists.1.length, some lists.1,
          some ⟨lists.1, lists.2.1, embeddings, lists.2.2⟩,
          store.add lists.1 lists.2.1 embeddings lists.2.2⟩

/-- The sentinel returned by `retrieve_context` on an empty store. -/
def noDocsMsg : List Char :=
  ("No documents have been indexed yet. Please upload some invoices first.").toList

/-- The sentinel returned by `retrieve_context` when the query yields no
documents. -/
def noCtxMsg : List Char :=
  ("No relevant context found.").toList

/-- Observable outcome of one `retrieve_context` call: the returned string
(or the propagated embedding-service exception) and whether the embedding
service was called. -/
structure RetrieveResult (Err : Type) where
  result : Except Err (List Char)
  embedCalled : Bool

/-- `retrieve_context` from `app/invoice_rag.py`.  `embedQ` models the
external single-query embedding call, which may raise (`Except.error`);
`queryFn` models the external `collection.query(..., n_results=4)`, whose
`results["documents"][0]` is the ranked document list for the single query
embedding. -/
def retrieve_context (store : Store E) (embedQ : String → Except Err E)
    (queryFn : Store E → E → Nat → List (List Char)) (question : String) :
    RetrieveResult Err :=
  if store.count = 0 then ⟨Except.ok noDocsMsg, false⟩
  else
    match embedQ question with
    | Except.error err => ⟨Except.error err, true⟩
    | Except.ok qe =>
      let docs := queryFn store qe 4
      if docs.isEmpty then ⟨Except.ok noCtxMsg, true⟩
      else ⟨Except.ok (List.intercalate (("\n\n").toList) docs), true⟩

theorem buildLists_eq (stem filename : String) :
    ∀ (chunks : List (List Char)) (i : Nat),
      buildLists stem filename i chunks =
        (((List.enumFrom i chunks).filter (fun p => !isBlank p.2)).map (fun p => p.2),
         ((List.enumFrom i chunks).filter (fun p => !isBlank p.2)).map
           (fun p => ChunkMeta.mk filename p.1),
         ((List.enumFrom i chunks).filter (fun p => !isBlank p.2)).map
           (fun p => stem ++ "_" ++ toString p.1)) := by
  intro chunks
  induction chunks with
  | nil => intro i; simp [buildLists]
  | cons c rest ih =>
    intro i
    by_cases hb : isBlank c <;>
      simp [buildLists, List.enumFrom, hb, ih (i + 1)]

theorem enumFrom_filter_map_snd (chunks : List (List Char)) :
    ∀ i : Nat,
      ((List.enumFrom i chunks).filter (fun p => !isBlank p.2)).map (fun p => p.2) =
        chunks.filter (fun c => !isBlank c) := by
  induction chunks with
  | nil => intro i; simp
  | cons c rest ih =>
    intro i
    by_cases hb : isBlank c <;> simp [List.enumFrom, hb, ih (i + 1)]

/-- C1: for every question string, if the vector store holds zero entries
(`count() == 0`), `retrieve_context` returns the "no documents indexed"
sentinel, does not call the embedding service (any `embedQ`, including an
always-failing one, is never invoked), and never raises (the result is
`Except.ok` whatever the embedding service would have done). -/
theorem c1_empty_store_sentinel (E Err : Type) (store : Store E)
    (embedQ : String → Except Err E)
    (queryFn : Store E → E → Nat → List (List Char)) (question : String)
    (h : store.count = 0) :
    retrieve_context store embedQ queryFn question =
      ⟨Except.ok noDocsMsg, false⟩ := by
  simp [retrieve_context, h]

theorem c1_witness :
    Store.count (⟨[]⟩ : Store Unit) = 0 ∧
    retrieve_context (⟨[]⟩ : Store Unit)
        (fun _ => (Except.error () : Except Unit Unit)) (fun _ _ _ => [])
        "anything" = ⟨Except.ok noDocsMsg, false⟩ :=
  ⟨rfl, c1_empty_store_sentinel Unit Unit ⟨[]⟩ _ _ "anything" rfl⟩

/-- C2: for every PDF whose extraction yields no text, or whose every chunk
is blank after whitespace-stripping, `index_pdf` returns 0, does not call
the embedding service, does not call the store's `add`, and leaves the
store (hence its `count()`) unchanged. -/
theorem c2_blank_pdf_noop (E : Type) (store : Store E)
    (embed1 : List Char → E) (filename stem : String)
    (pages : List (List Char))
    (h : load_pdf_text pages = [] ∨
      ∀ c ∈ (chunk_text (load_pdf_text pages) 800 120).getD [],
        isBlank c = true) :
    index_pdf store embed1 filename stem pages =
      some ⟨0, none, none, store⟩ := by
  obtain ⟨cs, hcs⟩ :=
    chunk_text_isSome (load_pdf_text pages) 800 120 (by omega)
  unfold index_pdf
  rw [hcs, Option.map_some']
  rcases h with h | h
  · have hnil : cs = [] := by
      have : chunk_text (load_pdf_text pages) 800 120 = some [] := by
        rw [h]
        rfl
      rw [this] at hcs
      exact (Option.some.injEq _ _ ▸ hcs.symm : _)
    subst hnil
    simp
  · by_cases hemp : cs.isEmpty
    · simp [hemp]
    · rw [if_neg (by simpa using hemp)]
      have hall : ∀ c ∈ cs, isBlank c = true := by
        intro c hc
        exact h c (by rw [hcs]; simpa using hc)
      have hdocs : (buildLists stem filename 0 cs).1 = [] := by
        rw [buildLists_eq, enumFrom_filter_map_snd]
        simp only [List.filter_eq_nil_iff]
        intro c hc
        simp [hall c hc]
      simp [hdocs]

theorem c2_witness :
    (load_pdf_text [] = [] ∨
      ∀ c ∈ (chunk_text (load_pdf_text []) 800 120).getD [],
        isBlank c = true) ∧
    index_pdf (⟨[]⟩ : Store Unit) (fun _ => ()) "scan.pdf" "scan" [] =
      some ⟨0, none, none, ⟨[]⟩⟩ :=
  ⟨Or.inl rfl,
   c2_blank_pdf_noop Unit ⟨[]⟩ (fun _ => ()) "scan.pdf" "scan" [] (Or.inl rfl)⟩

/-- C7: for every text and all parameters with `overlap < chunk_size`, the
`chunk_text` loop terminates (the fueled loop returns `some`) and the
result is a finite list of contiguous substrings of the input. -/
theorem c7_terminates_substrings (l : List Char) (C O : Nat) (hCO : O < C) :
    ∃ cs, chunk_text l C O = some cs ∧
      ∀ c ∈ cs, ∃ p q, l = p ++ c ++ q := by
  obtain ⟨cs, h⟩ := chunk_text_isSome l C O hCO
  exact ⟨cs, h, chunkGo_mem_sub l C O (l.length + 1) 0 cs h⟩

theorem c7_witness :
    1 < 3 ∧ ∃ cs, chunk_text (['a', 'b', 'c', 'd', 'e']) 3 1 = some cs ∧
      ∀ c ∈ cs, ∃ p q, (['a', 'b', 'c', 'd', 'e']) = p ++ c ++ q :=
  ⟨by decide, c7_terminates_substrings ['a', 'b', 'c', 'd', 'e'] 3 1 (by decide)⟩

/-- C8: for every text and parameters with `overlap < chunk_size`,
concatenating the `(chunk_size - overlap)`-length prefixes of the
consecutive chunks reconstructs the original text exactly. -/
theorem c8_strides_reconstruct (l : List Char) (C O : Nat) (hCO : O < C)
    (cs : List (List Char)) (h : chunk_text l C O = some cs) :
    (cs.map (List.take (C - O))).flatten = l := by
  have hf := chunkGo_flatten_takes l C O hCO (l.length + 1) 0 cs h
  simpa using hf

theorem c8_witness :
    chunk_text (['a', 'b', 'c', 'd', 'e']) 3 1 =
      some [['a', 'b', 'c'], ['c', 'd', 'e'], ['e']] ∧
    ([['a', 'b', 'c'], ['c', 'd', 'e'], ['e']].map (List.take (3 - 1))).flatten =
      ['a', 'b', 'c', 'd', 'e'] :=
  ⟨by decide,
   c8_strides_reconstruct ['a', 'b', 'c', 'd', 'e'] 3 1 (by decide)
     [['a', 'b', 'c'], ['c', 'd', 'e'], ['e']] (by decide)⟩

/-- C9 counterexample: there is no input text — in particular none whose
length is an exact multiple of the stride `chunk_size - overlap` — for
which `chunk_text` produces an empty-string window: the loop guard
`start < len(text)` makes every window nonempty. -/
theorem c9_counterexample :
    (∃ (l : List Char) (C O : Nat) (cs : List (List Char)),
      O < C ∧ l.length % (C - O) = 0 ∧ chunk_text l C O = some cs ∧
        [] ∈ cs) = False := by
  apply eq_false
  rintro ⟨l, C, O, cs, hCO, _, hchunk, hmem⟩
  exact chunkGo_ne_nil l C O (by omega) (l.length + 1) 0 cs hchunk [] hmem rfl

/-- C9 (amended): `chunk_text` never produces an empty-string window — in
particular not when the text length is an exact multiple of the stride —
so no downstream filtering of empty windows is needed (whitespace-only
windows are still possible and are what `index_pdf` filters). -/
theorem c9_no_empty_windows (l : List Char) (C O : Nat) (hCO : O < C)
    (cs : List (List Char)) (h : chunk_text l C O = some cs) :
    ∀ c ∈ cs, c ≠ [] :=
  chunkGo_ne_nil l C O (by omega) (l.length + 1) 0 cs h

theorem c9_witness :
    1 < 3 ∧ (['a', 'b', 'c', 'd'] : List Char).length % (3 - 1) = 0 ∧
    ∀ c ∈ [['a', 'b', 'c'], ['c', 'd']], c ≠ ([] : List Char) :=
  ⟨by decide, by decide,
   c9_no_empty_windows ['a', 'b', 'c', 'd'] 3 1 (by decide)
     [['a', 'b', 'c'], ['c', 'd']] (by decide)⟩

/-- C3 counterexample: for the text "abc" (L = 3) with chunk_size C = 3 and
overlap O = 1 the code produces 2 chunks ("abc" and "c"), while the claimed
formula gives ceil(max(L - O, 0) / (C - O)) = ceil(2 / 2) = 1. -/
theorem c3_counterexample :
    (chunk_text ['a', 'b', 'c'] 3 1).map List.length = some 2 ∧
    natCeilDiv (max (3 - 1) 0) (3 - 1) = 1 := by
  decide

/-- C3 (amended): for every text of length L and parameters with
`overlap < chunk_size`, the number of chunks produced by `chunk_text`
equals `ceil(L / (C - O))` (which is 0 for the empty text). -/
theorem c3_chunk_count (l : List Char) (C O : Nat) (hCO : O < C)
    (cs : List (List Char)) (h : chunk_text l C O = some cs) :
    cs.length = natCeilDiv l.length (C - O) := by
  have hc := chunkGo_length l C O hCO (l.length + 1) 0 cs h
  simpa using hc

theorem c3_witness :
    1 < 3 ∧
    chunk_text (['a', 'b', 'c', 'd', 'e']) 3 1 =
      some [['a', 'b', 'c'], ['c', 'd', 'e'], ['e']] ∧
    ([['a', 'b', 'c'], ['c', 'd', 'e'], ['e']] : List (List Char)).length =
      natCeilDiv (['a', 'b', 'c', 'd', 'e'] : List Char).length (3 - 1) :=
  ⟨by decide, by decide,
   c3_chunk_count ['a', 'b', 'c', 'd', 'e'] 3 1 (by decide)
     [['a', 'b', 'c'], ['c', 'd', 'e'], ['e']] (by decide)⟩

/-- C4 counterexample: the empty text (length 0 < 800) yields zero chunks,
not one, because the loop guard `start < len(text)` fails immediately; and
the text "abc" (length 3 < chunk_size 4, with overlap 2) yields two chunks
("abc" and "c"), not one, because the second start 4 - 2 = 2 is still
below the length. -/
theorem c4_counterexample :
    chunk_text [] 800 120 = some [] ∧
    (chunk_text ['a', 'b', 'c'] 4 2).map List.length = some 2 := by
  decide

/-- C4 (amended): for every nonempty text whose length is at most
`chunk_size - overlap` (with `overlap < chunk_size`), `chunk_text` yields
exactly one chunk, and that chunk equals the whole input text. -/
theorem c4_short_text_single_chunk (l : List Char) (C O : Nat) (hCO : O < C)
    (hne : l ≠ []) (hlen : l.length ≤ C - O) :
    chunk_text l C O = some [l] := by
  have hpos : 0 < l.length := List.length_pos.2 hne
  have hstop : l.length ≤ 0 + C - O := by omega
  unfold chunk_text
  simp only [chunkGo, if_pos hpos,
    chunkGo_of_le l C O l.length (0 + C - O) hstop]
  simp [pySlice, List.take_of_length_le (show l.length ≤ C by omega)]

theorem c4_witness :
    120 < 800 ∧ (['h', 'i'] : List Char) ≠ [] ∧
    (['h', 'i'] : List Char).length ≤ 800 - 120 ∧
    chunk_text ['h', 'i'] 800 120 = some [['h', 'i']] :=
  ⟨by decide, by decide, by decide,
   c4_short_text_single_chunk ['h', 'i'] 800 120 (by decide) (by decide)
     (by decide)⟩

/-- C6: whenever `index_pdf` reaches the store, the stored ids are
`"{stem}_{i}"` with `i` the chunk's original index in the pre-filter chunk
sequence (`List.enumFrom 0`), its metadata is `{source: filename, chunk: i}`
with that same original index, and its document text is the chunk at that
original index. -/
theorem c6_ids_use_original_index (E : Type) (store : Store E)
    (embed1 : List Char → E) (filename stem : String)
    (pages : List (List Char)) (r : IndexResult E)
    (hr : index_pdf store embed1 filename stem pages = some r)
    (a : AddArgs E) (ha : r.addArgs = some a) :
    ∃ cs, chunk_text (load_pdf_text pages) 800 120 = some cs ∧
      a.ids = ((List.enumFrom 0 cs).filter (fun p => !isBlank p.2)).map
          (fun p => stem ++ "_" ++ toString p.1) ∧
      a.metadatas = ((List.enumFrom 0 cs).filter (fun p => !isBlank p.2)).map
          (fun p => ChunkMeta.mk filename p.1) ∧
      a.documents = ((List.enumFrom 0 cs).filter (fun p => !isBlank p.2)).map
          (fun p => p.2) := by
  unfold index_pdf at hr
  cases hcs : chunk_text (load_pdf_text pages) 800 120 with
  | none => rw [hcs] at hr; cases hr
  | some cs =>
    rw [hcs, Option.map_some', Option.some.injEq] at hr
    subst hr
    refine ⟨cs, rfl, ?_⟩
    by_cases h1 : cs.isEmpty
    · simp [h1] at ha
    · simp only [h1, if_false, Bool.false_eq_true] at ha
      by_cases h2 : (buildLists stem filename 0 cs).1.isEmpty
      · simp [h2] at ha
      · simp only [h2, if_false, Bool.false_eq_true, Option.some.injEq] at ha
        subst ha
        rw [buildLists_eq stem filename cs 0]
        exact ⟨rfl, rfl, rfl⟩

theorem c6_witness :
    ∃ cs,
      chunk_text (load_pdf_text [['h', 'i']]) 800 120 = some cs ∧
      (AddArgs.ids
          ⟨[("[Page 1]\n").toList ++ ['h', 'i']], [⟨"inv.pdf", 0⟩], [()],
            ["inv_0"]⟩ : List String) =
        ((List.enumFrom 0 cs).filter (fun p => !isBlank p.2)).map
          (fun p => "inv" ++ "_" ++ toString p.1) ∧
      (AddArgs.metadatas
          ⟨[("[Page 1]\n").toList ++ ['h', 'i']], [⟨"inv.pdf", 0⟩], [()],
            ["inv_0"]⟩) =
        ((List.enumFrom 0 cs).filter (fun p => !isBlank p.2)).map
          (fun p => ChunkMeta.mk "inv.pdf" p.1) ∧
      (AddArgs.documents
          ⟨[("[Page 1]\n").toList ++ ['h', 'i']], [⟨"inv.pdf", 0⟩], [()],
            ["inv_0"]⟩) =
        ((List.enumFrom 0 cs).filter (fun p => !isBlank p.2)).map
          (fun p => p.2) :=
  c6_ids_use_original_index Unit ⟨[]⟩ (fun _ => ()) "inv.pdf" "inv" [['h', 'i']]
    ⟨1, some [("[Page 1]\n").toList ++ ['h', 'i']],
      some ⟨[("[Page 1]\n").toList ++ ['h', 'i']], [⟨"inv.pdf", 0⟩], [()],
        ["inv_0"]⟩,
      ⟨[("inv_0", ("[Page 1]\n").toList ++ ['h', 'i'], (), ⟨"inv.pdf", 0⟩)]⟩⟩
    (by decide)
    ⟨[("[Page 1]\n").toList ++ ['h', 'i']], [⟨"inv.pdf", 0⟩], [()], ["inv_0"]⟩
    (by decide)

/-- C10: in every call of `index_pdf` that reaches the store, the four
sequences passed to the store's `add` have equal length, that common
length is the value `index_pdf` returns, and it equals the number of
non-blank chunks. -/
theorem c10_add_call_lengths (E : Type) (store : Store E)
    (embed1 : List Char → E) (filename stem : String)
    (pages : List (List Char)) (r : IndexResult E)
    (hr : index_pdf store embed1 filename stem pages = some r)
    (a : AddArgs E) (ha : r.addArgs = some a) :
    a.documents.length = a.metadatas.length ∧
    a.documents.length = a.embeddings.length ∧
    a.documents.length = a.ids.length ∧
    r.ret = a.documents.length ∧
    r.ret = (((chunk_text (load_pdf_text pages) 800 120).getD []).filter
        (fun c => !isBlank c)).length := by
  unfold index_pdf at hr
  cases hcs : chunk_text (load_pdf_text pages) 800 120 with
  | none => rw [hcs] at hr; cases hr
  | some cs =>
    rw [hcs, Option.map_some', Option.some.injEq] at hr
    subst hr
    by_cases h1 : cs.isEmpty
    · simp [h1] at ha
    · simp only [h1, if_false, Bool.false_eq_true] at ha ⊢
      by_cases h2 : (buildLists stem filename 0 cs).1.isEmpty
      · simp [h2] at ha
      · simp only [h2, if_false, Bool.false_eq_true, Option.some.injEq] at ha ⊢
        subst ha
        have hdocs : (buildLists stem filename 0 cs).1 =
            cs.filter (fun c => !isBlank c) := by
          rw [buildLists_eq stem filename cs 0, enumFrom_filter_map_snd cs 0]
        refine ⟨?_, ?_, ?_, rfl, ?_⟩
        · rw [buildLists_eq stem filename cs 0]
          simp
        · simp
        · rw [buildLists_eq stem filename cs 0]
          simp
        · rw [hdocs]
          rfl

theorem c10_witness :
    (AddArgs.documents
        (⟨[("[Page 1]\n").toList ++ ['h', 'i']], [⟨"inv.pdf", 0⟩], [()],
          ["inv_0"]⟩ : AddArgs Unit)).length =
      [(⟨"inv.pdf", 0⟩ : ChunkMeta)].length ∧
    (AddArgs.documents
        (⟨[("[Page 1]\n").toList ++ ['h', 'i']], [⟨"inv.pdf", 0⟩], [()],
          ["inv_0"]⟩ : AddArgs Unit)).length = [()].length ∧
    (AddArgs.documents
        (⟨[("[Page 1]\n").toList ++ ['h', 'i']], [⟨"inv.pdf", 0⟩], [()],
          ["inv_0"]⟩ : AddArgs Unit)).length = ["inv_0"].length ∧
    (IndexResult.ret
        (⟨1, some [("[Page 1]\n").toList ++ ['h', 'i']],
          some ⟨[("[Page 1]\n").toList ++ ['h', 'i']], [⟨"inv.pdf", 0⟩], [()],
            ["inv_0"]⟩,
          ⟨[("inv_0", ("[Page 1]\n").toList ++ ['h', 'i'], (),
            ⟨"inv.pdf", 0⟩)]⟩⟩ : IndexResult Unit)) =
      (AddArgs.documents
        (⟨[("[Page 1]\n").toList ++ ['h', 'i']], [⟨"inv.pdf", 0⟩], [()],
          ["inv_0"]⟩ : AddArgs Unit)).length ∧
    (IndexResult.ret
        (⟨1, some [("[Page 1]\n").toList ++ ['h', 'i']],
          some ⟨[("[Page 1]\n").toList ++ ['h', 'i']], [⟨"inv.pdf", 0⟩], [()],
            ["inv_0"]⟩,
          ⟨[("inv_0", ("[Page 1]\n").toList ++ ['h', 'i'], (),
            ⟨"inv.pdf", 0⟩)]⟩⟩ : IndexResult Unit)) =
      (((chunk_text (load_pdf_text [['h', 'i']]) 800 120).getD []).filter
        (fun c => !isBlank c)).length :=
  c10_add_call_lengths Unit ⟨[]⟩ (fun _ => ()) "inv.pdf" "inv" [['h', 'i']]
    ⟨1, some [("[Page 1]\n").toList ++ ['h', 'i']],
      some ⟨[("[Page 1]\n").toList ++ ['h', 'i']], [⟨"inv.pdf", 0⟩], [()],
        ["inv_0"]⟩,
      ⟨[("inv_0", ("[Page 1]\n").toList ++ ['h', 'i'], (), ⟨"inv.pdf", 0⟩)]⟩⟩
    (by decide)
    ⟨[("[Page 1]\n").toList ++ ['h', 'i']], [⟨"inv.pdf", 0⟩], [()], ["inv_0"]⟩
    (by decide)

theorem chunkGo_some_eq (l : List Char) (C O : Nat) :
    ∀ f1 start cs, chunkGo l C O f1 start = some cs →
      ∀ f2 cs2, chunkGo l C O f2 start = some cs2 → cs = cs2 := by
  intro f1
  induction f1 with
  | zero =>
    intro start cs h f2 cs2 h2
    by_cases hs : start < l.length
    · simp [chunkGo, hs] at h
    · rw [chunkGo_of_le l C O 0 start (Nat.not_lt.1 hs)] at h
      rw [chunkGo_of_le l C O f2 start (Nat.not_lt.1 hs)] at h2
      cases h
      cases h2
      rfl
  | succ n ih =>
    intro start cs h f2 cs2 h2
    by_cases hs : start < l.length
    · cases f2 with
      | zero => simp [chunkGo, hs] at h2
      | succ m =>
        simp only [chunkGo, if_pos hs] at h h2
        cases hrec : chunkGo l C O n (start + C - O) with
        | none => rw [hrec] at h; cases h
        | some t =>
          rw [hrec] at h
          cases hrec2 : chunkGo l C O m (start + C - O) with
          | none => rw [hrec2] at h2; cases h2
          | some t2 =>
            rw [hrec2] at h2
            cases h
            cases h2
            rw [ih (start + C - O) t hrec m t2 hrec2]
    · rw [chunkGo_of_le l C O (n + 1) start (Nat.not_lt.1 hs)] at h
      rw [chunkGo_of_le l C O f2 start (Nat.not_lt.1 hs)] at h2
      cases h
      cases h2
      rfl

theorem chunkGo_step (l : List Char) (C O fuel start : Nat)
    (hs : start < l.length) (cs : List (List Char))
    (hcs : chunkGo l C O fuel (start + C - O) = some cs) :
    chunkGo l C O (fuel + 1) start =
      some (pySlice l start (start + C) :: cs) := by
  simp [chunkGo, hs, hcs]

theorem chunk_text_2000 (l : List Char) (hlen : l.length = 2000) :
    chunk_text l 800 120 =
      some [pySlice l 0 800, pySlice l 680 1480, pySlice l 1360 2160] := by
  have s3 : chunkGo l 800 120 0 2040 = some [] :=
    chunkGo_of_le l 800 120 0 2040 (by omega)
  have s2 : chunkGo l 800 120 1 1360 =
      some [pySlice l 1360 (1360 + 800)] := by
    apply chunkGo_step l 800 120 0 1360 (by omega)
    have e : (1360 : Nat) + 800 - 120 = 2040 := by norm_num
    rw [e]
    exact s3
  have s1 : chunkGo l 800 120 2 680 =
      some [pySlice l 680 (680 + 800), pySlice l 1360 (1360 + 800)] := by
    apply chunkGo_step l 800 120 1 680 (by omega)
    have e : (680 : Nat) + 800 - 120 = 1360 := by norm_num
    rw [e]
    exact s2
  have s0 : chunkGo l 800 120 3 0 =
      some [pySlice l 0 (0 + 800), pySlice l 680 (680 + 800),
        pySlice l 1360 (1360 + 800)] := by
    apply chunkGo_step l 800 120 2 0 (by omega)
    have e : (0 : Nat) + 800 - 120 = 680 := by norm_num
    rw [e]
    exact s1
  obtain ⟨cs, hcs⟩ := chunk_text_isSome l 800 120 (by omega)
  have huniq := chunkGo_some_eq l 800 120 (l.length + 1) 0 cs hcs 3 _ s0
  rw [hcs, huniq]

/-- The page marker prefix produced by `pageMark 0`, i.e. `"[Page 1]\n"`
as a character list. -/
def pageHeader : List Char :=
  ("[Page " ++ toString (0 + 1) ++ "]\n").toList

theorem pageMark_zero (t : List Char) : pageMark 0 t = pageHeader ++ t := rfl

theorem pageHeader_length : pageHeader.length = 9 := by decide

theorem pageHeader_not_blank : pageHeader.all pyIsSpace = false := by decide

theorem load_pdf_text_single (t : List Char) (h : ¬ t.isEmpty = true) :
    load_pdf_text [t] = pageMark 0 t := by
  simp [load_pdf_text, List.intercalate, h]

theorem slice0_eq (t : List Char) :
    pySlice (pageHeader ++ t) 0 800 = pageHeader ++ t.take 791 := by
  unfold pySlice
  rw [List.drop_zero, List.take_append_eq_append_take,
    List.take_of_length_le (by decide : pageHeader.length ≤ 800),
    pageHeader_length]

theorem slice1_eq (t : List Char) :
    pySlice (pageHeader ++ t) 680 1480 = (t.drop 671).take 800 := by
  unfold pySlice
  rw [List.drop_take, List.drop_append_eq_append_drop,
    List.drop_eq_nil_of_le (by rw [pageHeader_length]; omega),
    pageHeader_length]
  norm_num

theorem slice2_eq (t : List Char) (ht : t.length = 1991) :
    pySlice (pageHeader ++ t) 1360 2160 = t.drop 1351 := by
  unfold pySlice
  rw [List.take_of_length_le
      (by rw [List.length_append, pageHeader_length, ht]; omega),
    List.drop_append_eq_append_drop,
    List.drop_eq_nil_of_le (by rw [pageHeader_length]; omega),
    pageHeader_length]
  norm_num

theorem isBlank_append_false (a b : List Char)
    (ha : a.all pyIsSpace = false) : isBlank (a ++ b) = false := by
  simp [isBlank, List.all_append, ha]

theorem isBlank_replicate_space (n : Nat) :
    isBlank (List.replicate n ' ') = true := by
  simp only [isBlank, List.all_eq_true]
  intro x hx
  rw [List.eq_of_mem_replicate hx]
  decide

theorem isBlank_eq_false_of_mem (l : List Char) (x : Char) (hx : x ∈ l)
    (hpx : pyIsSpace x = false) : isBlank l = false := by
  cases hall : isBlank l
  · rfl
  · unfold isBlank at hall
    rw [List.all_eq_true] at hall
    rw [hall x hx] at hpx
    cases hpx

theorem replicate_not_isEmpty (n : Nat) (c : Char) (h : 0 < n) :
    ¬ (List.replicate n c).isEmpty = true := by
  cases n with
  | zero => omega
  | succ m =>
    rw [List.replicate_succ, List.isEmpty_cons]
    exact Bool.false_ne_true

theorem buildLists_three_drop (stem filename : String) (c0 c1 c2 : List Char)
    (h0 : isBlank c0 = false) (h1 : isBlank c1 = true)
    (h2 : isBlank c2 = true) :
    buildLists stem filename 0 [c0, c1, c2] =
      ([c0], [⟨filename, 0⟩], [stem ++ "_" ++ toString 0]) := by
  simp [buildLists, h0, h1, h2]

theorem buildLists_three_keep (stem filename : String) (c0 c1 c2 : List Char)
    (h0 : isBlank c0 = false) (h1 : isBlank c1 = false)
    (h2 : isBlank c2 = false) :
    buildLists stem filename 0 [c0, c1, c2] =
      ([c0, c1, c2],
       [⟨filename, 0⟩, ⟨filename, 1⟩, ⟨filename, 2⟩],
       [stem ++ "_0", stem ++ "_1", stem ++ "_2"]) := by
  have e0 : ("_" : String) ++ toString (0 : Nat) = "_0" := rfl
  have e1 : ("_" : String) ++ toString (1 : Nat) = "_1" := rfl
  have e2 : ("_" : String) ++ toString (2 : Nat) = "_2" := rfl
  simp [buildLists, h0, h1, h2, String.append_assoc, e0, e1, e2]

/-- C5 counterexample: the 2000-character extracted text
`"[Page 1]\n" ++ "x" ++ 1990 spaces` (chunk_size 800, overlap 120) is
chunked into 3 windows, but windows 1 and 2 are whitespace-only, so
`index_pdf` filters them out before the store: it assigns only the single
id `inv_0` and returns 1, not the claimed `inv_0, inv_1, inv_2`. -/
theorem c5_counterexample :
    (load_pdf_text ['x' :: List.replicate 1990 ' ']).length = 2000 ∧
    ∃ r, index_pdf (⟨[]⟩ : Store Unit) (fun _ => ()) "inv.pdf" "inv"
        ['x' :: List.replicate 1990 ' '] = some r ∧
      r.ret = 1 ∧ ∃ a, r.addArgs = some a ∧ a.ids = ["inv_0"] := by
  have htext : load_pdf_text ['x' :: List.replicate 1990 ' '] =
      pageHeader ++ ('x' :: List.replicate 1990 ' ') := by
    rw [load_pdf_text_single _ (by rw [List.isEmpty_cons]; exact Bool.false_ne_true),
      pageMark_zero]
  have hlen : (load_pdf_text ['x' :: List.replicate 1990 ' ']).length = 2000 := by
    rw [htext, List.length_append, pageHeader_length, List.length_cons,
      List.length_replicate]
  have hcs := chunk_text_2000 _ hlen
  have hd671 : ('x' :: List.replicate 1990 ' ').drop 671 =
      List.replicate 1320 ' ' := by
    have e : 'x' :: List.replicate 1990 ' ' =
        ['x'] ++ List.replicate 1990 ' ' := rfl
    rw [e, List.drop_append_eq_append_drop,
      List.drop_eq_nil_of_le (by decide), List.nil_append,
      List.drop_replicate]
    congr 1
  have hd1351 : ('x' :: List.replicate 1990 ' ').drop 1351 =
      List.replicate 640 ' ' := by
    have e : 'x' :: List.replicate 1990 ' ' =
        ['x'] ++ List.replicate 1990 ' ' := rfl
    rw [e, List.drop_append_eq_append_drop,
      List.drop_eq_nil_of_le (by decide), List.nil_append,
      List.drop_replicate]
    congr 1
  have hb0 : isBlank
      (pySlice (load_pdf_text ['x' :: List.replicate 1990 ' ']) 0 800) =
        false := by
    rw [htext, slice0_eq]
    exact isBlank_append_false _ _ pageHeader_not_blank
  have hb1 : isBlank
      (pySlice (load_pdf_text ['x' :: List.replicate 1990 ' ']) 680 1480) =
        true := by
    rw [htext, slice1_eq, hd671]
    rw [List.take_replicate]
    exact isBlank_replicate_space _
  have hb2 : isBlank
      (pySlice (load_pdf_text ['x' :: List.replicate 1990 ' ']) 1360 2160) =
        true := by
    rw [htext,
      slice2_eq _ (by rw [List.length_cons, List.length_replicate]), hd1351]
    exact isBlank_replicate_space _
  refine ⟨hlen, ?_⟩
  unfold index_pdf
  rw [hcs, Option.map_some']
  have hbuild := buildLists_three_drop "inv" "inv.pdf" _ _ _ hb0 hb1 hb2
  have eid : ("inv" : String) ++ "_" ++ toString (0 : Nat) = "inv_0" := rfl
  rw [eid] at hbuild
  refine ⟨_, rfl, ?_, ?_⟩
  · simp only [List.isEmpty_cons, Bool.false_eq_true, if_false, hbuild]
    rfl
  · simp only [List.isEmpty_cons, Bool.false_eq_true, if_false, hbuild]
    exact ⟨_, rfl, rfl⟩

/-- C5 (amended): for a 2000-character extracted text with chunk_size 800
and overlap 120, `chunk_text` yields exactly 3 chunks; and provided every
chunk is non-blank after whitespace-stripping (any non-degenerate document
text), `index_pdf` assigns them the ids `stem_0`, `stem_1`, `stem_2` —
blank chunks are instead filtered out and their ids skipped, as the
counterexample shows. -/
theorem c5_2000_char_three_chunks (E : Type) (store : Store E)
    (embed1 : List Char → E) (filename stem : String)
    (pages : List (List Char))
    (hlen : (load_pdf_text pages).length = 2000)
    (hnb : ∀ c ∈ (chunk_text (load_pdf_text pages) 800 120).getD [],
      isBlank c = false) :
    (∃ cs, chunk_text (load_pdf_text pages) 800 120 = some cs ∧
      cs.length = 3) ∧
    ∃ r, index_pdf store embed1 filename stem pages = some r ∧
      ∃ a, r.addArgs = some a ∧
        a.ids = [stem ++ "_0", stem ++ "_1", stem ++ "_2"] := by
  have hcs := chunk_text_2000 (load_pdf_text pages) hlen
  rw [hcs] at hnb
  simp only [Option.getD_some] at hnb
  have hb0 : isBlank (pySlice (load_pdf_text pages) 0 800) = false :=
    hnb _ (by simp)
  have hb1 : isBlank (pySlice (load_pdf_text pages) 680 1480) = false :=
    hnb _ (by simp)
  have hb2 : isBlank (pySlice (load_pdf_text pages) 1360 2160) = false :=
    hnb _ (by simp)
  refine ⟨⟨_, hcs, rfl⟩, ?_⟩
  unfold index_pdf
  rw [hcs, Option.map_some']
  have hbuild := buildLists_three_keep stem filename _ _ _ hb0 hb1 hb2
  refine ⟨_, rfl, ?_⟩
  simp only [List.isEmpty_cons, Bool.false_eq_true, if_false, hbuild]
  exact ⟨_, rfl, rfl⟩

set_option maxRecDepth 2000 in
theorem c5_witness :
    (load_pdf_text [List.replicate 1991 'x']).length = 2000 ∧
    (∀ c ∈ (chunk_text (load_pdf_text [List.replicate 1991 'x']) 800 120).getD [],
      isBlank c = false) ∧
    ((∃ cs, chunk_text (load_pdf_text [List.replicate 1991 'x']) 800 120 =
        some cs ∧ cs.length = 3) ∧
     ∃ r, index_pdf (⟨[]⟩ : Store Unit) (fun _ => ()) "inv.pdf" "inv"
         [List.replicate 1991 'x'] = some r ∧
       ∃ a, r.addArgs = some a ∧
         a.ids = ["inv" ++ "_0", "inv" ++ "_1", "inv" ++ "_2"]) := by
  have htext : load_pdf_text [List.replicate 1991 'x'] =
      pageHeader ++ List.replicate 1991 'x' := by
    rw [load_pdf_text_single _ (replicate_not_isEmpty 1991 'x' (by omega)),
      pageMark_zero]
  have hlen : (load_pdf_text [List.replicate 1991 'x']).length = 2000 := by
    rw [htext, List.length_append, pageHeader_length, List.length_replicate]
  have hnb : ∀ c ∈ (chunk_text (load_pdf_text [List.replicate 1991 'x'])
      800 120).getD [], isBlank c = false := by
    rw [chunk_text_2000 _ hlen]
    simp only [Option.getD_some]
    intro c hc
    have hxmem : ∀ m : Nat, 0 < m → 'x' ∈ List.replicate m 'x' := by
      intro m hm
      rw [List.mem_replicate]
      exact ⟨by omega, rfl⟩
    rcases List.mem_cons.1 hc with h | hc
    · subst h
      rw [htext, slice0_eq]
      exact isBlank_append_false _ _ pageHeader_not_blank
    rcases List.mem_cons.1 hc with h | hc
    · subst h
      rw [htext]
      rw [slice1_eq]
      rw [List.drop_replicate]
      rw [List.take_replicate]
      apply isBlank_eq_false_of_mem _ 'x'
      · exact hxmem _ (by omega)
      · decide
    rcases List.mem_cons.1 hc with h | hc
    · subst h
      rw [htext]
      rw [slice2_eq _ (by rw [List.length_replicate])]
      rw [List.drop_replicate]
      apply isBlank_eq_false_of_mem _ 'x'
      · exact hxmem _ (by omega)
      · decide
    · cases hc
  exact ⟨hlen, hnb,
    c5_2000_char_three_chunks Unit ⟨[]⟩ (fun _ => ()) "inv.pdf" "inv"
      [List.replicate 1991 'x'] hlen hnb⟩

end InvoiceRag
